import Mathlib

/-
Verification of the scroll-synchronized media player in
src/assets/js/alt_slider/slider_main.js.

Shallow embedding conventions:
* JavaScript floating-point numbers are modelled as rationals (ℚ); all
  arithmetic appearing in the player (+, -, *, /, comparisons) is exact on
  the inputs of interest, except that the literal 1.1 in setSrc is modelled
  as 11/10 (the two differ only on knife-edge viewport widths that none of
  the claims touch).
* Per-binding mutable closure state (scrollPct, videoLastFrame,
  videoShouldUpdate, the video element's currentTime/visibility, the
  g-show class of each fallback image and of the still image) is collected
  in the VideoState structure; per-binding configuration and the
  environment the DOM/video element exposes (buffered ranges, readyState,
  loaded fallback image start percentages) are collected in Env.
* Each JS while-countdown loop is embedded as a structural recursion on the
  countdown counter, reading list elements through List.get? exactly where
  the source indexes the array.
-/

namespace ScrollVideo

/-- The step divisor of the easing step in jumpToTime.  In the source it is
the closure variable stepDivisor, initialized to 10 and never reassigned. -/
def stepDivisor : ℚ := 10

/-- Mutable per-binding state of the player (see the closure variables of
create and the DOM state the player writes). -/
structure VideoState where
  videoLastFrame : ℚ
  currentTime : ℚ
  videoVisible : Bool
  fallbackShown : List Bool
  stillShown : Bool
  videoShouldUpdate : Bool
  scrollPct : ℚ
deriving DecidableEq, Repr

/-- Per-binding configuration and environment facts read by the player:
frame parameters, scroll sub-range, optional pause regions, the number of
configured slides, the start percentages of the fallback images loaded so
far (a prefix of the slides, pushed in load order), the buffered
time-ranges the video element reports, and the ready flag. -/
structure Env where
  frameRate : ℚ
  frameLength : ℚ
  keyFrameLength : ℚ
  startScroll : ℚ
  endScroll : ℚ
  pauses : Option (List (ℚ × ℚ))
  slidesLen : ℕ
  starts : List ℚ
  buffered : List (ℚ × ℚ)
  readyState : Bool
deriving DecidableEq, Repr

/-- adjustScrollPct (slider_main.js lines 1216-1230): turns the stored
scroll percentage into the normalized sub-progress jumpToPct that is handed
to jumpToTime. -/
def adjustScrollPct (startScroll endScroll scrollPct : ℚ) : ℚ :=
  if scrollPct > startScroll ∧ scrollPct < endScroll then
    let adjustedPct := (scrollPct - startScroll) / (endScroll - startScroll)
    if adjustedPct > 1 then 1 else if adjustedPct < 0 then 0 else adjustedPct
  else if scrollPct ≥ endScroll then 1 else 0

/-- The target playback frame of a progress update: jumpToTime receives
jumpToPct from adjustScrollPct and computes videoNextFrame = frameLength *
pct (line 1178). -/
def targetFrame (frameLength startScroll endScroll scrollPct : ℚ) : ℚ :=
  frameLength * adjustScrollPct startScroll endScroll scrollPct

/-- The clamp currPct = currPct < 0 ? 0 : currPct > 1 ? 1 : currPct of
checkBuffered (line 1243). -/
def clamp01 (x : ℚ) : ℚ := if x < 0 then 0 else if x > 1 then 1 else x

/-- The while (fallbackLen--) loop of checkBuffered (lines 1245-1257): scan
indices from slidesLen - 1 down to 0; break with range (0,0) when the
fallback image at the index is not yet loaded (undefined); break with the
slot range when currPct exceeds the slot's start, taking 1 as the end for
the last slide and the next slot's start otherwise.  The counter m is the
value of fallbackLen before the decrement, so index m - 1 is inspected. -/
def fbRangeGo (slidesLen : ℕ) (starts : List ℚ) (currPct : ℚ) : ℕ → ℚ × ℚ
  | 0 => (0, 0)
  | k + 1 =>
    match starts.get? k with
    | none => (0, 0)
    | some s =>
      if currPct > s then
        (s, if k = slidesLen - 1 then 1 else (starts.get? (k + 1)).getD 0)
      else fbRangeGo slidesLen starts currPct k

/-- The fallback range computed by checkBuffered for the currently
applicable fallback-image slot (initial counter value is slides.length). -/
def findFallbackRange (slidesLen : ℕ) (starts : List ℚ) (currPct : ℚ) : ℚ × ℚ :=
  fbRangeGo slidesLen starts currPct slidesLen

/-- The while (bufferedLen--) loop of checkBuffered (lines 1259-1271): true
when some buffered time-range contains currPct and fully contains the
fallback range.  The source iterates from the top index down and breaks on
the first hit; since only the resulting boolean is observable, the
existential scan direction is irrelevant and the list is scanned
front-to-back here. -/
def bufLoop (currPct : ℚ) (r : ℚ × ℚ) : List (ℚ × ℚ) → Bool
  | [] => false
  | br :: rest =>
    if currPct ≥ br.1 ∧ currPct ≤ br.2 ∧ r.1 ≥ br.1 ∧ r.2 ≤ br.2 then true
    else bufLoop currPct r rest

/-- checkBuffered (lines 1232-1274): false when the ready flag is unset;
otherwise clamp the frame-derived percentage, locate the applicable
fallback slot range and test the buffered time-ranges. -/
def checkBuffered (readyState : Bool) (slidesLen : ℕ) (starts : List ℚ)
    (frameLength : ℚ) (buffered : List (ℚ × ℚ)) (frameToUse : ℚ) : Bool :=
  if readyState = false then false
  else
    let currPct := clamp01 (frameToUse / frameLength)
    bufLoop currPct (findFallbackRange slidesLen starts currPct) buffered

/-- The while (pausesLen--) loop of checkForPauses (lines 1282-1292): scan
pause regions from the top index down; on the first region with
start < pct < end return the eased frame
videoLastFrame + (frameLength * start - videoLastFrame) / stepDivisor. -/
def pausesGo (frameLength videoLastFrame pct : ℚ) (l : List (ℚ × ℚ)) :
    ℕ → Option ℚ
  | 0 => none
  | k + 1 =>
    match l.get? k with
    | none => none
    | some r =>
      if pct > r.1 ∧ pct < r.2 then
        some (videoLastFrame + (frameLength * r.1 - videoLastFrame) / stepDivisor)
      else pausesGo frameLength videoLastFrame pct l k

/-- checkForPauses (lines 1276-1296): when obj.pauses is undefined, or no
region matches, return frameToUse unchanged. -/
def checkForPauses (frameLength : ℚ) (pauses : Option (List (ℚ × ℚ)))
    (videoLastFrame frameToUse pct : ℚ) : ℚ :=
  match pauses with
  | none => frameToUse
  | some l => (pausesGo frameLength videoLastFrame pct l l.length).getD frameToUse

/-- The per-image g-show decision of showFallback (line 1484), with i the
index of the image in the loaded fallbackImages array:
scrollPct >= img.start && scrollPct > 0 || scrollPct < img.start && !index. -/
def showFallbackGo (scrollPct : ℚ) : ℕ → List ℚ → List Bool
  | _, [] => []
  | i, st :: rest =>
    decide ((scrollPct ≥ st ∧ scrollPct > 0) ∨ (scrollPct < st ∧ i = 0)) ::
      showFallbackGo scrollPct (i + 1) rest

/-- showFallback (lines 1480-1493): recompute the g-show class of every
loaded fallback image from the stored scroll percentage and hide the video
(opacity 0, visibility hidden, modelled as videoVisible = false). -/
def showFallback (env : Env) (s : VideoState) : VideoState :=
  { s with fallbackShown := showFallbackGo s.scrollPct 0 env.starts,
           videoVisible := false }

/-- hideFallback (lines 1495-1504): remove the g-show class from every
loaded fallback image and show the video (opacity 1, visibility visible,
modelled as videoVisible = true). -/
def hideFallback (env : Env) (s : VideoState) : VideoState :=
  { s with fallbackShown := env.starts.map (fun _ => false),
           videoVisible := true }

/-- The frame jumpToTime computes before the buffering check (lines
1178-1181): one easing step of 1/stepDivisor of the remaining distance from
videoLastFrame toward frameLength * pct, clamped to [0, frameLength]. -/
def jumpFrame (env : Env) (s : VideoState) (pct : ℚ) : ℚ :=
  let videoNextFrame := env.frameLength * pct
  let videoCurrFrame :=
    s.videoLastFrame + (videoNextFrame - s.videoLastFrame) / stepDivisor
  if videoCurrFrame < 0 then 0
  else if videoCurrFrame > env.frameLength then env.frameLength
  else videoCurrFrame

/-- jumpToTime (lines 1175-1209).  When the buffering check passes:
hideFallback, apply the pause-region override, set currentTime to the
clamped frame divided by frameRate, and depending on whether the remaining
jump distance is below keyFrameLength + 1 either stop updating and refresh
the still image (whose synchronous effect removes its g-show class and
zeroes its opacity, line 1137-1138; the asynchronous onload is outside this
model) or clear the still image and keep updating.  When the check fails:
showFallback.  Either way videoLastFrame records the frame used. -/
def jumpToTime (env : Env) (s : VideoState) (pct : ℚ) : VideoState :=
  let videoNextFrame := env.frameLength * pct
  let frameToUse := jumpFrame env s pct
  if checkBuffered env.readyState env.slidesLen env.starts env.frameLength
      env.buffered frameToUse then
    let s1 := hideFallback env s
    let frameToUse2 :=
      checkForPauses env.frameLength env.pauses s.videoLastFrame frameToUse pct
    let t := frameToUse2 / env.frameRate
    let ct := if t < 0 then 0 else if t > env.frameLength then env.frameLength else t
    if |videoNextFrame - frameToUse2| < env.keyFrameLength + 1 then
      { s1 with currentTime := ct, videoShouldUpdate := false,
                stillShown := false, videoLastFrame := frameToUse2 }
    else
      { s1 with currentTime := ct, stillShown := false,
                videoShouldUpdate := true, videoLastFrame := frameToUse2 }
  else
    { showFallback env s with videoLastFrame := frameToUse }

/-- The scroll-trigger phase of a progress event (e.state). -/
inductive ScrollPhase where
  | before
  | during
  | after
deriving DecidableEq, Repr

/-- The progress handler installed by startScrollAnimation (lines
1110-1129).  hideAllElements has an empty body, so only videoShouldUpdate,
scrollPct and the call into adjustScrollPct remain.  adjustScrollPct only
schedules jumpToTime on a 10 ms timer (the clearTimeout it performs is a
no-op because custTimer is never assigned), so the handler's synchronous
result is the updated state paired with whether a recomputation
(adjustScrollPct, hence a scheduled jumpToTime) was triggered. -/
def progressHandler (s : VideoState) (phase : ScrollPhase) (progress : ℚ) :
    VideoState × Bool :=
  let s1 := if phase = ScrollPhase.before ∨ phase = ScrollPhase.after then
      { s with videoShouldUpdate := false }
    else s
  if s1.scrollPct ≠ progress then
    let s2 := { s1 with scrollPct := progress }
    if s2.videoShouldUpdate = false then (s2, true) else (s2, false)
  else (s1, false)

/-- setSrc's size selection (lines 1656-1665): on the array of declared
integer pixel sizes for the current aspect, find the first size s with
s * 1.1 > winWidth; when none is found (or the found value is falsy, i.e.
0) take the last declared size.  The float literal 1.1 is modelled as
11/10. -/
def setSrcSize (sizes : List ℤ) (winWidth : ℚ) : Option ℤ :=
  match sizes.find? (fun (s : ℤ) => decide ((s : ℚ) * (11/10) > winWidth)) with
  | some s => if s = 0 then sizes.getLast? else some s
  | none => sizes.getLast?

/-- The playThroughTimer interval body (lines 1515-1524) across a run of
ticks, each tick observing the video element's readyState: the ready flag
becomes true at the first tick observing readyState > 3 (the interval is
then cleared), and stays false while no tick does. -/
def runPlayThrough : List ℕ → Bool
  | [] => false
  | r :: rest => if r > 3 then true else runPlayThrough rest

/-- The grace period of setSrc's loadNextVideo timer (line 1604):
setTimeout (next, 7500). -/
def setSrcTimeoutMs : ℚ := 7500

/-- The time at which setSrc's next () runs, as a function of the time at
which canplaythrough fires (none when it never fires): next is invoked by
whichever of the canplaythrough listener and the 7500 ms timer comes first,
and it cancels the other (lines 1602-1614). -/
def loadCallbackTime (canplay : Option ℚ) : ℚ :=
  match canplay with
  | none => setSrcTimeoutMs
  | some t => if t < setSrcTimeoutMs then t else setSrcTimeoutMs

/-- The delay between a fallback image's load callback and the request for
the next image (line 1475): setTimeout (..., 100). -/
def fallbackLoadDelayMs : ℕ := 100

/-- Externally observable events of the fallback-image loader. -/
inductive LoaderEvent where
  | request : ℕ → LoaderEvent
  | loaded : ℕ → LoaderEvent
  | timer : ℕ → LoaderEvent
deriving DecidableEq, Repr

/-- Control state of the fallback-image loader between events: a call
loadFallbackImages i that passed the bounds guard has issued request i and
waits for its onload; after onload i the 100 ms timer is pending; done when
the bounds guard index > imagesArr.length - 1 stopped the recursion. -/
inductive LoaderState where
  | awaitingLoad : ℕ → LoaderState
  | awaitingTimer : ℕ → LoaderState
  | done : LoaderState
deriving DecidableEq, Repr

/-- The initial call loadFallbackImages (0, obj.slides) (line 1513) over n
slides: the guard index > imagesArr.length - 1 (line 1458, JS arithmetic,
hence evaluated over ℤ) either stops immediately or issues request 0. -/
def loaderInit (n : ℕ) : LoaderState × List LoaderEvent :=
  if (0 : ℤ) > (n : ℤ) - 1 then (LoaderState.done, [])
  else (LoaderState.awaitingLoad 0, [LoaderEvent.request 0])

/-- One environment-driven step of the loader (lines 1456-1478): an issued
request's onload fires, appending the loaded event; or the pending 100 ms
timer fires, re-entering loadFallbackImages (index + 1), whose bounds guard
either stops or issues the next request. -/
inductive LoaderStep (n : ℕ) :
    LoaderState → List LoaderEvent → LoaderState → List LoaderEvent → Prop where
  | fireLoad (i : ℕ) (t : List LoaderEvent) :
      LoaderStep n (LoaderState.awaitingLoad i) t
        (LoaderState.awaitingTimer i) (t ++ [LoaderEvent.loaded i])
  | fireTimerDone (i : ℕ) (t : List LoaderEvent)
      (h : (i : ℤ) + 1 > (n : ℤ) - 1) :
      LoaderStep n (LoaderState.awaitingTimer i) t
        LoaderState.done (t ++ [LoaderEvent.timer i])
  | fireTimerNext (i : ℕ) (t : List LoaderEvent)
      (h : ¬ ((i : ℤ) + 1 > (n : ℤ) - 1)) :
      LoaderStep n (LoaderState.awaitingTimer i) t
        (LoaderState.awaitingLoad (i + 1))
        (t ++ [LoaderEvent.timer i, LoaderEvent.request (i + 1)])

/-- The loader configurations reachable from loadFallbackImages (0, slides)
over n slides, together with the trace of emitted events. -/
inductive LoaderReachable (n : ℕ) : LoaderState → List LoaderEvent → Prop where
  | init : LoaderReachable n (loaderInit n).1 (loaderInit n).2
  | step {st tr st' tr'} : LoaderReachable n st tr →
      LoaderStep n st tr st' tr' → LoaderReachable n st' tr'

/-- The canonical event block of slide j in a completed load. -/
def loaderCell (j : ℕ) : List LoaderEvent :=
  [LoaderEvent.request j, LoaderEvent.loaded j, LoaderEvent.timer j]

/-- Claim C1: for every scroll percentage p delivered to the progress
handler, the computed target playback frame (frameLength * jumpToPct) is 0
when p is at or below startScroll, frameLength times the clamped normalized
sub-progress when p lies strictly between startScroll and endScroll, and
frameLength when p is at or above endScroll; in particular with
frameLength = 600, startScroll = 0.1, endScroll = 0.9 and p = 0.5 the
target frame is 300 (frameRate does not enter the frame computation). -/
theorem c1_target_frame (fl s e p : ℚ) (h : s < e) :
    (p ≤ s → targetFrame fl s e p = 0)
    ∧ (s < p → p < e →
        targetFrame fl s e p = fl * max 0 (min 1 ((p - s) / (e - s))))
    ∧ (e ≤ p → targetFrame fl s e p = fl)
    ∧ targetFrame 600 (1/10) (9/10) (1/2) = 300 := by
  refine ⟨?_, ?_, ?_, ?_⟩
  · intro hp
    have h1 : ¬ (p > s ∧ p < e) := by
      intro hc
      exact absurd hc.1 (not_lt.mpr hp)
    have h2 : ¬ (p ≥ e) := by
      intro hc
      exact absurd (lt_of_lt_of_le h hc) (not_lt.mpr hp)
    simp [targetFrame, adjustScrollPct, h1, h2]
  · intro hs he
    have hpos : (0:ℚ) < e - s := sub_pos.mpr h
    have ha0 : 0 < (p - s) / (e - s) := div_pos (sub_pos.mpr hs) hpos
    have ha1 : (p - s) / (e - s) < 1 := by
      rw [div_lt_one hpos]
      exact sub_lt_sub_right he s
    have hcond : p > s ∧ p < e := ⟨hs, he⟩
    have hmax : max 0 (min 1 ((p - s) / (e - s))) = (p - s) / (e - s) := by
      rw [min_eq_right ha1.le, max_eq_right ha0.le]
    simp only [targetFrame, adjustScrollPct, if_pos hcond, hmax]
    rw [if_neg (not_lt.mpr ha1.le), if_neg (not_lt.mpr ha0.le)]
  · intro hp
    have h1 : ¬ (p > s ∧ p < e) := by
      intro hc
      exact absurd hc.2 (not_lt.mpr hp)
    simp [targetFrame, adjustScrollPct, h1, hp, mul_one]
  · norm_num [targetFrame, adjustScrollPct]

/-- Witness for C1 at the concrete binding of the spec: startScroll = 0.1 <
endScroll = 0.9, p = 0.5 lies strictly inside, and the target frame equals
600 times the clamped sub-progress, which is 300. -/
theorem c1_target_frame_witness :
    targetFrame 600 (1/10) (9/10) (1/2) =
      600 * max 0 (min 1 (((1:ℚ)/2 - 1/10) / (9/10 - 1/10))) := by
  have h := (c1_target_frame 600 (1/10) (9/10) (1/2) (by norm_num)).2.1
    (by norm_num) (by norm_num)
  exact h

/-- On a sorted size list, the size found by setSrc's find is the smallest
declared size whose value times 11/10 exceeds the viewport width. -/
lemma find_smallest_aux (w : ℚ) :
    ∀ sizes : List ℤ, List.Sorted (· ≤ ·) sizes →
      ∀ a, sizes.find? (fun (s : ℤ) => decide ((s : ℚ) * (11/10) > w)) = some a →
        a ∈ sizes ∧ (a : ℚ) * (11/10) > w ∧
          ∀ t ∈ sizes, (t : ℚ) * (11/10) > w → a ≤ t := by
  intro sizes
  induction sizes with
  | nil => intro _ a h; simp [List.find?] at h
  | cons s rest ih =>
    intro hs a h
    rw [List.sorted_cons] at hs
    by_cases hp : (s : ℚ) * (11/10) > w
    · rw [List.find?_cons_of_pos _ (by simpa using hp)] at h
      obtain rfl : s = a := by simpa using h
      refine ⟨List.mem_cons_self _ _, hp, ?_⟩
      intro t ht _
      rcases List.mem_cons.mp ht with rfl | htr
      · exact le_refl t
      · exact hs.1 t htr
    · rw [List.find?_cons_of_neg _ (by simpa using hp)] at h
      obtain ⟨hmem, hpred, hmin⟩ := ih hs.2 a h
      refine ⟨List.mem_cons_of_mem _ hmem, hpred, ?_⟩
      intro t ht hpt
      rcases List.mem_cons.mp ht with rfl | htr
      · exact absurd hpt hp
      · exact hmin t htr hpt

/-- Claim C2 counterexample: with declared variants [640, 800] and viewport
width 700 the code selects 640, not 800 as the claim states, because the
selection predicate is s * 1.1 > winWidth (640 * 1.1 = 704 > 700), not
s > winWidth. -/
theorem c2_counterexample :
    setSrcSize [640, 800] 700 = some 640 ∧ some (640 : ℤ) ≠ some (800 : ℤ) := by
  constructor
  · norm_num [setSrcSize, List.find?]
  · decide

/-- Claim C2, amended: setSrc selects the smallest declared size variant s
with s * 1.1 greater than the viewport width (not the smallest variant
exceeding the width), falling back to the largest declared variant when no
variant qualifies; with variants [640, 800], viewport width 700 selects
640, and viewport width 1000 selects 800. -/
theorem c2_amended_selection (sizes : List ℤ) (w : ℚ)
    (hpos : ∀ s ∈ sizes, 0 < s) (hsort : List.Sorted (· ≤ ·) sizes) :
    ((∃ s ∈ sizes, (s : ℚ) * (11/10) > w) →
      ∃ s, setSrcSize sizes w = some s ∧ s ∈ sizes ∧ (s : ℚ) * (11/10) > w ∧
        ∀ t ∈ sizes, (t : ℚ) * (11/10) > w → s ≤ t)
    ∧ ((∀ s ∈ sizes, ¬ ((s : ℚ) * (11/10) > w)) →
        setSrcSize sizes w = sizes.getLast?)
    ∧ setSrcSize [640, 800] 700 = some 640
    ∧ setSrcSize [640, 800] 1000 = some 800 := by
  refine ⟨?_, ?_, ?_, ?_⟩
  · rintro ⟨s0, hs0, hp0⟩
    cases hfind : sizes.find? (fun (s : ℤ) => decide ((s : ℚ) * (11/10) > w)) with
    | none =>
      rw [List.find?_eq_none] at hfind
      exact absurd hp0 (by simpa using hfind s0 hs0)
    | some a =>
      obtain ⟨hmem, hpred, hmin⟩ := find_smallest_aux w sizes hsort a hfind
      refine ⟨a, ?_, hmem, hpred, hmin⟩
      rw [setSrcSize, hfind]
      exact if_neg (hpos a hmem).ne'
  · intro hnone
    have hfind : sizes.find? (fun (s : ℤ) => decide ((s : ℚ) * (11/10) > w)) = none :=
      List.find?_eq_none.mpr (fun x hx => by simpa using hnone x hx)
    rw [setSrcSize, hfind]
  · norm_num [setSrcSize, List.find?]
  · norm_num [setSrcSize, List.find?]

/-- Witness for the amended C2 at variants [640, 800] and viewport width
700: some qualifying variant exists, so the selection is the smallest
variant whose value times 11/10 exceeds 700. -/
theorem c2_amended_selection_witness :
    ∃ s, setSrcSize [640, 800] 700 = some s ∧ s ∈ [(640 : ℤ), 800] ∧
      (s : ℚ) * (11/10) > 700 ∧
      ∀ t ∈ [(640 : ℤ), 800], (t : ℚ) * (11/10) > 700 → s ≤ t :=
  (c2_amended_selection [640, 800] 700 (by decide) (by decide)).1
    ⟨640, by norm_num⟩

/-- The buffered-ranges loop returns true exactly when some buffered range
contains currPct and fully contains the fallback range. -/
lemma bufLoop_iff (c : ℚ) (r : ℚ × ℚ) :
    ∀ l : List (ℚ × ℚ), bufLoop c r l = true ↔
      ∃ br ∈ l, c ≥ br.1 ∧ c ≤ br.2 ∧ r.1 ≥ br.1 ∧ r.2 ≤ br.2 := by
  intro l
  induction l with
  | nil => simp [bufLoop]
  | cons br rest ih =>
    by_cases h : c ≥ br.1 ∧ c ≤ br.2 ∧ r.1 ≥ br.1 ∧ r.2 ≤ br.2
    · simp [bufLoop, h]
    · simp only [bufLoop, if_neg h, ih, List.mem_cons]
      constructor
      · rintro ⟨x, hx, hcond⟩
        exact ⟨x, Or.inr hx, hcond⟩
      · rintro ⟨x, rfl | hx, hcond⟩
        · exact absurd hcond h
        · exact ⟨x, hx, hcond⟩

/-- The fallback-slot countdown of checkBuffered stops at the greatest
index whose slot start is below currPct, when every fallback image is
loaded. -/
lemma fbRangeGo_top (n : ℕ) (starts : List ℚ) (c : ℚ) (k : ℕ) (a : ℚ)
    (hlen : starts.length = n) (hget : starts.get? k = some a) (ha : c > a)
    (htop : ∀ j, k < j → ∀ b, starts.get? j = some b → ¬ c > b) :
    ∀ m, k < m → m ≤ n → fbRangeGo n starts c m =
      (a, if k = n - 1 then 1 else (starts.get? (k + 1)).getD 0) := by
  intro m
  induction m with
  | zero => intro h _; exact absurd h (Nat.not_lt_zero k)
  | succ m ih =>
    intro hkm hmn
    have hmlen : m < starts.length := by omega
    have hb : starts.get? m = some (starts.get ⟨m, hmlen⟩) :=
      List.get?_eq_get hmlen
    by_cases hkm2 : k = m
    · subst hkm2
      simp only [fbRangeGo, hget, if_pos ha]
    · have hk : k < m := by omega
      have hnb : ¬ c > starts.get ⟨m, hmlen⟩ := htop m hk _ hb
      simp only [fbRangeGo, hb, if_neg hnb]
      exact ih hk (by omega)

/-- When currPct is at or below every loaded slot start, the fallback-slot
countdown ends with range (0, 0), when every fallback image is loaded. -/
lemma fbRangeGo_none (n : ℕ) (starts : List ℚ) (c : ℚ)
    (hlen : starts.length = n)
    (hnone : ∀ k b, starts.get? k = some b → ¬ c > b) :
    ∀ m, m ≤ n → fbRangeGo n starts c m = (0, 0) := by
  intro m
  induction m with
  | zero => intro _; rfl
  | succ m ih =>
    intro hmn
    have hmlen : m < starts.length := by omega
    have hb : starts.get? m = some (starts.get ⟨m, hmlen⟩) :=
      List.get?_eq_get hmlen
    have hnb : ¬ c > starts.get ⟨m, hmlen⟩ := hnone m _ hb
    simp only [fbRangeGo, hb, if_neg hnb]
    exact ih (by omega)

/-- When not every fallback image is loaded yet, the countdown's first
probe hits an undefined entry and breaks with range (0, 0). -/
lemma findFallbackRange_short (n : ℕ) (starts : List ℚ) (c : ℚ)
    (h : starts.length < n) : findFallbackRange n starts c = (0, 0) := by
  cases n with
  | zero => exact absurd h (Nat.not_lt_zero _)
  | succ m =>
    have hnone : starts.get? m = none := List.get?_eq_none.mpr (by omega)
    simp only [findFallbackRange, fbRangeGo, hnone]

/-- When the buffering check passes, jumpToTime takes the hideFallback
branch: the video ends visible and every fallback image loses its g-show
class, in both the near-target and far-target sub-branches. -/
lemma jumpToTime_buffered_eq (env : Env) (s : VideoState) (pct : ℚ)
    (hb : checkBuffered env.readyState env.slidesLen env.starts
      env.frameLength env.buffered (jumpFrame env s pct) = true) :
    (jumpToTime env s pct).videoVisible = true ∧
    (jumpToTime env s pct).fallbackShown = env.starts.map (fun _ => false) := by
  simp only [jumpToTime, hb, if_true, hideFallback]
  split <;> exact ⟨rfl, rfl⟩

/-- When the buffering check fails, jumpToTime takes the showFallback
branch, only also recording the frame it computed. -/
lemma jumpToTime_not_buffered_eq (env : Env) (s : VideoState) (pct : ℚ)
    (hb : checkBuffered env.readyState env.slidesLen env.starts
      env.frameLength env.buffered (jumpFrame env s pct) = false) :
    jumpToTime env s pct =
      { showFallback env s with videoLastFrame := jumpFrame env s pct } := by
  simp only [jumpToTime, hb]
  rfl

/-- Claim C3: a progress update is honored (hideFallback runs, leaving the
video visible and every fallback image hidden) exactly when checkBuffered
passes; checkBuffered passes exactly when the ready flag is set and some
buffered time-range of the video contains the clamped scroll-derived
percentage and fully contains the range of the currently applicable
fallback slot; that slot range belongs to the greatest slot index whose
start is below the percentage (with end 1 for the last slide and the next
slot's start otherwise) when all fallback images are loaded, is (0, 0)
when no slot start is below the percentage, and is (0, 0) as soon as the
countdown hits a not-yet-loaded entry (the inverted-iteration edge case
the spec flags). -/
theorem c3_buffering_decision (env : Env) (s : VideoState) (pct : ℚ) :
    (((jumpToTime env s pct).videoVisible = true ∧
        ∀ b ∈ (jumpToTime env s pct).fallbackShown, b = false) ↔
      checkBuffered env.readyState env.slidesLen env.starts env.frameLength
        env.buffered (jumpFrame env s pct) = true)
    ∧ (∀ (rs : Bool) (n : ℕ) (starts : List ℚ) (fl : ℚ)
        (buf : List (ℚ × ℚ)) (f : ℚ),
        checkBuffered rs n starts fl buf f = true ↔
          rs = true ∧ ∃ br ∈ buf,
            br.1 ≤ clamp01 (f / fl) ∧ clamp01 (f / fl) ≤ br.2 ∧
            (findFallbackRange n starts (clamp01 (f / fl))).1 ≥ br.1 ∧
            (findFallbackRange n starts (clamp01 (f / fl))).2 ≤ br.2)
    ∧ (∀ (n : ℕ) (starts : List ℚ) (c : ℚ) (k : ℕ) (a : ℚ),
        starts.length = n → starts.get? k = some a → c > a →
        (∀ j, k < j → ∀ b, starts.get? j = some b → ¬ c > b) →
        findFallbackRange n starts c =
          (a, if k = n - 1 then 1 else (starts.get? (k + 1)).getD 0))
    ∧ (∀ (n : ℕ) (starts : List ℚ) (c : ℚ), starts.length = n →
        (∀ k b, starts.get? k = some b → ¬ c > b) →
        findFallbackRange n starts c = (0, 0))
    ∧ (∀ (n : ℕ) (starts : List ℚ) (c : ℚ), starts.length < n →
        findFallbackRange n starts c = (0, 0)) := by
  refine ⟨?_, ?_, ?_, ?_, ?_⟩
  · constructor
    · rintro ⟨hv, _⟩
      by_contra hb
      have hb' : checkBuffered env.readyState env.slidesLen env.starts
          env.frameLength env.buffered (jumpFrame env s pct) = false := by
        cases h : checkBuffered env.readyState env.slidesLen env.starts
            env.frameLength env.buffered (jumpFrame env s pct) with
        | true => exact absurd h hb
        | false => rfl
      rw [jumpToTime_not_buffered_eq env s pct hb'] at hv
      simp [showFallback] at hv
    · intro hb
      obtain ⟨h1, h2⟩ := jumpToTime_buffered_eq env s pct hb
      refine ⟨h1, ?_⟩
      rw [h2]
      simp
  · intro rs n starts fl buf f
    cases rs with
    | false => simp [checkBuffered]
    | true =>
      have h := bufLoop_iff (clamp01 (f / fl))
        (findFallbackRange n starts (clamp01 (f / fl))) buf
      simp only [checkBuffered, ge_iff_le] at h ⊢
      simp [h, ge_iff_le]
  · intro n starts c k a hlen hget ha htop
    obtain ⟨hk, -⟩ := List.get?_eq_some.mp hget
    exact fbRangeGo_top n starts c k a hlen hget ha htop n (by omega) le_rfl
  · intro n starts c hlen hnone
    exact fbRangeGo_none n starts c hlen hnone n le_rfl
  · intro n starts c h
    exact findFallbackRange_short n starts c h

/-- Witness for C3 applying its applicable-slot characterization at loaded
starts [1/4, 1/2] over 2 slides with percentage 3/5: the slot of index 1
(start 1/2, the greatest below 3/5) owns the range up to 1. -/
theorem c3_buffering_decision_witness :
    findFallbackRange 2 [1/4, 1/2] (3/5) = (1/2, 1) := by
  have htop : ∀ j, 1 < j → ∀ b, ([1/4, 1/2] : List ℚ).get? j = some b →
      ¬ (3 : ℚ)/5 > b := by
    intro j hj b hb
    rcases j with _ | _ | j
    · omega
    · omega
    · simp [List.get?] at hb
  have h := (c3_buffering_decision
      ⟨30, 600, 3, 0, 1, none, 0, [], [], true⟩
      ⟨0, 0, false, [], false, false, 0⟩ 0).2.2.1
    2 [1/4, 1/2] (3/5) 1 (1/2) (by norm_num) rfl (by norm_num) htop
  simpa using h

/-- Index-wise characterization of the g-show classes showFallback
assigns, with base the index of the first list element. -/
lemma showFallbackGo_get_true (p : ℚ) :
    ∀ (starts : List ℚ) (base k : ℕ),
      (showFallbackGo p base starts).get? k = some true ↔
        ∃ st, starts.get? k = some st ∧
          ((p ≥ st ∧ p > 0) ∨ (p < st ∧ base + k = 0)) := by
  intro starts
  induction starts with
  | nil => intro base k; simp [showFallbackGo]
  | cons st rest ih =>
    intro base k
    cases k with
    | zero => simp [showFallbackGo]
    | succ k =>
      have h := ih (base + 1) k
      simp only [showFallbackGo, List.get?] at h ⊢
      rw [h]
      constructor
      · rintro ⟨st2, hst2, hc | hc⟩
        · exact ⟨st2, hst2, Or.inl hc⟩
        · exact absurd hc.2 (by omega)
      · rintro ⟨st2, hst2, hc | hc⟩
        · exact ⟨st2, hst2, Or.inl hc⟩
        · exact absurd hc.2 (by omega)

/-- Claim C4 counterexample: with loaded fallback starts [0.1, 0.3] and
scroll percentage 0.5 the image whose start is the greatest one not
exceeding 0.5 is the one at index 1 (start 0.3), yet the image at index 0
also receives the g-show class: showFallback shows every image whose start
is at or below the scroll percentage, not exactly one. -/
theorem c4_counterexample :
    showFallbackGo (1/2) 0 [1/10, 3/10] = [true, true] ∧
    ((1 : ℚ)/10 < 3/10 ∧ (3 : ℚ)/10 ≤ 1/2) := by
  constructor
  · norm_num [showFallbackGo]
  · norm_num

/-- Claim C4, amended: when buffering is insufficient, showFallback marks
shown exactly those fallback images whose start does not exceed the scroll
percentage while that percentage is positive, plus the first image when
the percentage is below its start (so the image with the greatest start
not exceeding the percentage is shown, but images before it stay shown
too), and it hides the video. -/
theorem c4_amended_show_fallback (env : Env) (s : VideoState) :
    (showFallback env s).videoVisible = false
    ∧ ∀ i, ((showFallback env s).fallbackShown.get? i = some true ↔
        ∃ st, env.starts.get? i = some st ∧
          ((s.scrollPct ≥ st ∧ s.scrollPct > 0) ∨ (s.scrollPct < st ∧ i = 0))) := by
  refine ⟨rfl, ?_⟩
  intro i
  have h := showFallbackGo_get_true s.scrollPct env.starts 0 i
  simpa [showFallback] using h

/-- Witness for the amended C4 at loaded starts [1/10, 3/10] and stored
scroll percentage 1/2: the image at index 0 carries the g-show class. -/
theorem c4_amended_show_fallback_witness :
    (showFallback ⟨30, 600, 3, 0, 1, none, 2, [1/10, 3/10], [], true⟩
      ⟨0, 0, false, [], false, false, 1/2⟩).fallbackShown.get? 0 = some true := by
  have h := (c4_amended_show_fallback
      ⟨30, 600, 3, 0, 1, none, 2, [1/10, 3/10], [], true⟩
      ⟨0, 0, false, [], false, false, 1/2⟩).2 0
  rw [h]
  exact ⟨1/10, rfl, Or.inl ⟨by norm_num, by norm_num⟩⟩

/-- The pause-region countdown returns the eased frame of the
greatest-index region strictly containing pct. -/
lemma pausesGo_top (fl vlf pct : ℚ) (l : List (ℚ × ℚ)) (k : ℕ) (a b : ℚ)
    (hget : l.get? k = some (a, b)) (ha : pct > a) (hb : pct < b)
    (htop : ∀ j, k < j → ∀ r, l.get? j = some r → ¬ (pct > r.1 ∧ pct < r.2)) :
    ∀ m, k < m → m ≤ l.length →
      pausesGo fl vlf pct l m = some (vlf + (fl * a - vlf) / stepDivisor) := by
  intro m
  induction m with
  | zero => intro h _; exact absurd h (Nat.not_lt_zero k)
  | succ m ih =>
    intro hkm hmn
    have hmlen : m < l.length := by omega
    have hr : l.get? m = some (l.get ⟨m, hmlen⟩) := List.get?_eq_get hmlen
    by_cases hkm2 : k = m
    · subst hkm2
      simp only [pausesGo, hget, if_pos (And.intro ha hb)]
    · have hk : k < m := by omega
      have hnr : ¬ (pct > (l.get ⟨m, hmlen⟩).1 ∧ pct < (l.get ⟨m, hmlen⟩).2) :=
        htop m hk _ hr
      simp only [pausesGo, hr, if_neg hnr]
      exact ih hk (by omega)

/-- Claim C5 counterexample: with pause region [0.2, 0.4], frameLength
600, videoLastFrame 0 and scroll-derived percentage 0.3, the frame at the
region's start is 600 * 0.2 = 120, but checkForPauses returns the eased
value 0 + (120 - 0) / 10 = 12, not 120. -/
theorem c5_counterexample :
    checkForPauses 600 (some [(1/5, 2/5)]) 0 18 (3/10) = 12 ∧
    (12 : ℚ) ≠ 600 * (1/5) := by
  constructor
  · norm_num [checkForPauses, pausesGo, stepDivisor]
  · norm_num

/-- Claim C5, amended: for a configured pause region [a, b] strictly
containing the scroll-derived percentage (the region of greatest list
index among the matching ones; the comparisons are strict, so the
endpoints themselves are outside the region), checkForPauses returns not
the frame at a but one easing step from videoLastFrame toward
frameLength * a, namely videoLastFrame + (frameLength * a -
videoLastFrame) / stepDivisor; the frame at a is the fixed point of that
step, so the video settles on (rather than sits at) the region's start
frame while scrolling continues inside the region. -/
theorem c5_amended_pause_frame (fl vlf frameToUse pct : ℚ)
    (l : List (ℚ × ℚ)) (k : ℕ) (a b : ℚ)
    (hget : l.get? k = some (a, b)) (ha : a < pct) (hb : pct < b)
    (htop : ∀ j, k < j → ∀ r, l.get? j = some r → ¬ (pct > r.1 ∧ pct < r.2)) :
    checkForPauses fl (some l) vlf frameToUse pct =
      vlf + (fl * a - vlf) / stepDivisor
    ∧ (vlf = fl * a →
        checkForPauses fl (some l) vlf frameToUse pct = fl * a) := by
  obtain ⟨hk, -⟩ := List.get?_eq_some.mp hget
  have h := pausesGo_top fl vlf pct l k a b hget ha hb htop l.length hk le_rfl
  have hmain : checkForPauses fl (some l) vlf frameToUse pct =
      vlf + (fl * a - vlf) / stepDivisor := by
    simp [checkForPauses, h]
  refine ⟨hmain, ?_⟩
  intro hv
  rw [hmain, hv]
  simp

/-- Witness for the amended C5 at the single pause region [1/5, 2/5] with
frameLength 600, videoLastFrame 0 and percentage 3/10 strictly inside. -/
theorem c5_amended_pause_frame_witness :
    checkForPauses 600 (some [(1/5, 2/5)]) 0 18 (3/10) =
      0 + (600 * (1/5) - 0) / stepDivisor := by
  have htop : ∀ j, 0 < j → ∀ r, ([((1:ℚ)/5, (2:ℚ)/5)] : List (ℚ × ℚ)).get? j = some r →
      ¬ ((3:ℚ)/10 > r.1 ∧ (3:ℚ)/10 < r.2) := by
    intro j hj r hr
    rcases j with _ | j
    · omega
    · simp [List.get?] at hr
  exact (c5_amended_pause_frame 600 0 18 (3/10) [(1/5, 2/5)] 0 (1/5) (2/5)
    rfl (by norm_num) (by norm_num) htop).1

/-- Shape invariant of the loader: the emitted trace is fully determined
by the control state — the canonical blocks of the completed slides,
followed by the pending request (and its load, once fired). -/
lemma loader_inv {n : ℕ} {st : LoaderState} {tr : List LoaderEvent}
    (h : LoaderReachable n st tr) :
    (∃ i, st = LoaderState.awaitingLoad i ∧ i < n ∧
      tr = (List.range i).flatMap loaderCell ++ [LoaderEvent.request i])
    ∨ (∃ i, st = LoaderState.awaitingTimer i ∧ i < n ∧
      tr = (List.range i).flatMap loaderCell ++
        [LoaderEvent.request i, LoaderEvent.loaded i])
    ∨ (st = LoaderState.done ∧ tr = (List.range n).flatMap loaderCell) := by
  induction h with
  | init =>
    by_cases hn : (0 : ℤ) > (n : ℤ) - 1
    · right; right
      have hn0 : n = 0 := by omega
      subst hn0
      simp [loaderInit, hn]
    · left
      refine ⟨0, ?_, by omega, ?_⟩
      · simp [loaderInit, hn]
      · simp [loaderInit, hn]
  | step hreach hstep ih =>
    cases hstep with
    | fireLoad i t =>
      rcases ih with ⟨j, hj, hjn, htr⟩ | ⟨j, hj, hjn, htr⟩ | ⟨hj, htr⟩
      · obtain rfl : j = i := by injection hj with h2; omega
        right; left
        refine ⟨j, rfl, hjn, ?_⟩
        rw [htr]
        simp
      · exact absurd hj (by simp)
      · exact absurd hj (by simp)
    | fireTimerDone i t hcond =>
      rcases ih with ⟨j, hj, hjn, htr⟩ | ⟨j, hj, hjn, htr⟩ | ⟨hj, htr⟩
      · exact absurd hj (by simp)
      · obtain rfl : j = i := by injection hj with h2; omega
        right; right
        refine ⟨rfl, ?_⟩
        have hn : n = j + 1 := by omega
        subst hn
        rw [htr]
        simp [List.range_succ, loaderCell]
      · exact absurd hj (by simp)
    | fireTimerNext i t hcond =>
      rcases ih with ⟨j, hj, hjn, htr⟩ | ⟨j, hj, hjn, htr⟩ | ⟨hj, htr⟩
      · exact absurd hj (by simp)
      · obtain rfl : j = i := by injection hj with h2; omega
        left
        refine ⟨j + 1, rfl, by omega, ?_⟩
        rw [htr]
        simp [List.range_succ, loaderCell]
      · exact absurd hj (by simp)

/-- Membership of a request event in the canonical completed blocks. -/
lemma mem_bind_cell_request (m k : ℕ) :
    LoaderEvent.request k ∈ (List.range m).flatMap loaderCell ↔ k < m := by
  simp [List.mem_flatMap, loaderCell, List.mem_range, eq_comm]

/-- Membership of a loaded event in the canonical completed blocks. -/
lemma mem_bind_cell_loaded (m k : ℕ) :
    LoaderEvent.loaded k ∈ (List.range m).flatMap loaderCell ↔ k < m := by
  simp [List.mem_flatMap, loaderCell, List.mem_range, eq_comm]

/-- Membership of a timer event in the canonical completed blocks. -/
lemma mem_bind_cell_timer (m k : ℕ) :
    LoaderEvent.timer k ∈ (List.range m).flatMap loaderCell ↔ k < m := by
  simp [List.mem_flatMap, loaderCell, List.mem_range, eq_comm]

/-- Claim C6: in every reachable loader configuration, the request for
image i+1 is present only if image i's load callback (and the timer the
callback scheduled) already fired; a request with its load still pending
is unique, so at most one image request is in flight at any time; requests
are issued in slide order; and the fixed delay separating a load callback
from the next request is 100 ms. -/
theorem c6_loader_sequential (n : ℕ) (st : LoaderState)
    (tr : List LoaderEvent) (h : LoaderReachable n st tr) :
    (∀ i, LoaderEvent.request (i + 1) ∈ tr →
      LoaderEvent.loaded i ∈ tr ∧ LoaderEvent.timer i ∈ tr)
    ∧ (∀ i j, LoaderEvent.request i ∈ tr → LoaderEvent.loaded i ∉ tr →
        LoaderEvent.request j ∈ tr → LoaderEvent.loaded j ∉ tr → i = j)
    ∧ (∀ i j, LoaderEvent.request i ∈ tr → j < i → LoaderEvent.request j ∈ tr)
    ∧ fallbackLoadDelayMs = 100 := by
  rcases loader_inv h with ⟨i0, -, hi0, htr⟩ | ⟨i0, -, hi0, htr⟩ | ⟨-, htr⟩ <;>
    subst htr
  · refine ⟨?_, ?_, ?_, rfl⟩
    · intro i hi
      simp only [List.mem_append, mem_bind_cell_request, mem_bind_cell_loaded,
        mem_bind_cell_timer, List.mem_singleton] at hi ⊢
      simp only [LoaderEvent.request.injEq, reduceCtorEq] at hi ⊢
      omega
    · intro i j hri hli hrj hlj
      simp only [List.mem_append, mem_bind_cell_request, mem_bind_cell_loaded,
        mem_bind_cell_timer, List.mem_singleton, LoaderEvent.request.injEq,
        reduceCtorEq] at hri hli hrj hlj
      omega
    · intro i j hri hj
      simp only [List.mem_append, mem_bind_cell_request, List.mem_singleton,
        LoaderEvent.request.injEq] at hri ⊢
      omega
  · refine ⟨?_, ?_, ?_, rfl⟩
    · intro i hi
      simp only [List.mem_append, mem_bind_cell_request, mem_bind_cell_loaded,
        mem_bind_cell_timer, List.mem_cons, List.mem_singleton,
        LoaderEvent.request.injEq, reduceCtorEq, List.not_mem_nil, or_false] at hi ⊢
      omega
    · intro i j hri hli hrj hlj
      simp only [List.mem_append, mem_bind_cell_request, mem_bind_cell_loaded,
        List.mem_cons, List.mem_singleton, LoaderEvent.request.injEq,
        LoaderEvent.loaded.injEq, reduceCtorEq, List.not_mem_nil, or_false] at hri hli hrj hlj
      omega
    · intro i j hri hj
      simp only [List.mem_append, mem_bind_cell_request, List.mem_cons,
        List.mem_singleton, LoaderEvent.request.injEq, reduceCtorEq,
        List.not_mem_nil, or_false] at hri ⊢
      omega
  · refine ⟨?_, ?_, ?_, rfl⟩
    · intro i hi
      simp only [mem_bind_cell_request, mem_bind_cell_loaded,
        mem_bind_cell_timer] at hi ⊢
      omega
    · intro i j hri hli hrj hlj
      simp only [mem_bind_cell_request, mem_bind_cell_loaded] at hri hli hrj hlj
      omega
    · intro i j hri hj
      simp only [mem_bind_cell_request] at hri ⊢
      omega

/-- Witness for C6 at the reachable configuration over 2 slides in which
image 0 has been requested and its load callback just fired. -/
theorem c6_loader_sequential_witness : fallbackLoadDelayMs = 100 :=
  (c6_loader_sequential 2 (LoaderState.awaitingTimer 0)
    [LoaderEvent.request 0, LoaderEvent.loaded 0]
    (LoaderReachable.step LoaderReachable.init
      (LoaderStep.fireLoad 0 [LoaderEvent.request 0]))).2.2.2

/-- Claim C7: while no interval tick observes a playable ready-state
(readyState > 3), the ready flag stays false; with the flag false,
checkBuffered returns false on every input, so every progress tick takes
the fallback path (the video stays hidden) — silent degradation with no
retry beyond the next tick; and independently, when canplaythrough does
not fire within the 7500 ms grace period after setSrc, the load callback
runs at the grace period, proceeding to the next video as if the asset had
loaded. -/
theorem c7_silent_degradation :
    (∀ ticks : List ℕ, (∀ r ∈ ticks, ¬ r > 3) → runPlayThrough ticks = false)
    ∧ (∀ (n : ℕ) (starts : List ℚ) (fl : ℚ) (buf : List (ℚ × ℚ)) (f : ℚ),
        checkBuffered false n starts fl buf f = false)
    ∧ (∀ (env : Env) (s : VideoState) (pct : ℚ), env.readyState = false →
        (jumpToTime env s pct).videoVisible = false)
    ∧ (∀ c : Option ℚ, (∀ t, c = some t → setSrcTimeoutMs ≤ t) →
        loadCallbackTime c = setSrcTimeoutMs)
    ∧ setSrcTimeoutMs = 7500 := by
  refine ⟨?_, ?_, ?_, ?_, rfl⟩
  · intro ticks h
    induction ticks with
    | nil => rfl
    | cons r rest ih =>
      have hr : ¬ r > 3 := h r (List.mem_cons_self r rest)
      simp only [runPlayThrough, if_neg hr]
      exact ih (fun x hx => h x (List.mem_cons_of_mem r hx))
  · intro n starts fl buf f
    simp [checkBuffered]
  · intro env s pct h
    have hb : checkBuffered env.readyState env.slidesLen env.starts
        env.frameLength env.buffered (jumpFrame env s pct) = false := by
      rw [h]
      simp [checkBuffered]
    rw [jumpToTime_not_buffered_eq env s pct hb]
    rfl
  · intro c h
    cases c with
    | none => rfl
    | some t =>
      have ht : setSrcTimeoutMs ≤ t := h t rfl
      simp only [loadCallbackTime, if_neg (not_lt.mpr ht)]

/-- Witness for C7: four ticks all observing ready-states at most 3 leave
the flag false, and a canplaythrough arriving at 9000 ms (past the grace
period) still has the load callback run at the 7500 ms grace period. -/
theorem c7_silent_degradation_witness :
    runPlayThrough [0, 1, 2, 3] = false ∧
    loadCallbackTime (some 9000) = setSrcTimeoutMs := by
  constructor
  · exact c7_silent_degradation.1 [0, 1, 2, 3] (by decide)
  · refine c7_silent_degradation.2.2.2.1 (some 9000) ?_
    intro t ht
    cases ht
    norm_num [setSrcTimeoutMs]

/-- A state whose update flag is already false is unchanged by clearing
the flag. -/
lemma vsu_eta (s : VideoState) (h : s.videoShouldUpdate = false) :
    { s with videoShouldUpdate := false } = s := by
  cases s
  simp_all

/-- Claim C8: one call of the progress handler leaves the stored scroll
percentage equal to the incoming progress, so invoking the handler a
second time with the same progress value returns the state unchanged and
triggers no recomputation (no adjustScrollPct call, hence no scheduled
jumpToTime and no change to video time, fallback visibility or the still
image); moreover the handler recomputes only when the incoming progress
differs from the stored scroll percentage. -/
theorem c8_progress_idempotent (s : VideoState) (phase : ScrollPhase)
    (progress : ℚ) :
    progressHandler (progressHandler s phase progress).1 phase progress =
      ((progressHandler s phase progress).1, false)
    ∧ (s.scrollPct = progress → (progressHandler s phase progress).2 = false) := by
  by_cases hph : phase = ScrollPhase.before ∨ phase = ScrollPhase.after
  · by_cases hsc : s.scrollPct = progress
    · constructor
      · simp [progressHandler, hph, hsc, vsu_eta]
      · intro _
        simp [progressHandler, hph, hsc]
    · constructor
      · simp [progressHandler, hph, hsc, vsu_eta]
      · intro h
        exact absurd h hsc
  · by_cases hsc : s.scrollPct = progress
    · constructor
      · simp [progressHandler, hph, hsc]
      · intro _
        simp [progressHandler, hph, hsc]
    · constructor
      · by_cases hvu : s.videoShouldUpdate = false
        · simp [progressHandler, hph, hsc, hvu]
        · simp [progressHandler, hph, hsc, hvu]
      · intro h
        exact absurd h hsc

/-- Witness for C8 at a concrete state whose stored scroll percentage
already equals the incoming progress: the handler triggers no
recomputation. -/
theorem c8_progress_idempotent_witness :
    (progressHandler ⟨0, 0, false, [], false, false, 0⟩
      ScrollPhase.during 0).2 = false :=
  (c8_progress_idempotent ⟨0, 0, false, [], false, false, 0⟩
    ScrollPhase.during 0).2 rfl

/-- No configured pause region strictly contains the percentage (always
true when obj.pauses is undefined). -/
def noPauseApplies (pauses : Option (List (ℚ × ℚ))) (pct : ℚ) : Prop :=
  match pauses with
  | none => True
  | some l => ∀ r ∈ l, ¬ (pct > r.1 ∧ pct < r.2)

/-- When no pause region strictly contains the percentage, checkForPauses
returns the incoming frame unchanged. -/
lemma checkForPauses_eq_of_noapply (fl : ℚ) (pauses : Option (List (ℚ × ℚ)))
    (vlf f pct : ℚ) (h : noPauseApplies pauses pct) :
    checkForPauses fl pauses vlf f pct = f := by
  cases pauses with
  | none => rfl
  | some l =>
    have hnone : ∀ m, m ≤ l.length → pausesGo fl vlf pct l m = none := by
      intro m
      induction m with
      | zero => intro _; rfl
      | succ m ih =>
        intro hm
        have hmlen : m < l.length := by omega
        have hr : l.get? m = some (l.get ⟨m, hmlen⟩) := List.get?_eq_get hmlen
        have hmem : l.get ⟨m, hmlen⟩ ∈ l := List.get_mem l m hmlen
        have hnc := h _ hmem
        simp only [pausesGo, hr, if_neg hnc]
        exact ih (by omega)
    simp [checkForPauses, hnone l.length le_rfl]

/-- The frame jumpToTime computes stays within [0, frameLength]. -/
lemma jumpFrame_bounds (env : Env) (s : VideoState) (pct : ℚ)
    (hfl : 0 ≤ env.frameLength) :
    0 ≤ jumpFrame env s pct ∧ jumpFrame env s pct ≤ env.frameLength := by
  simp only [jumpFrame]
  split_ifs with h1 h2
  · exact ⟨le_refl 0, hfl⟩
  · exact ⟨hfl, le_refl _⟩
  · push_neg at h1 h2
    exact ⟨h1, h2⟩

/-- The if-chain clamp of jumpToTime agrees with the max/min clamp. -/
lemma jumpFrame_eq_clamp (env : Env) (s : VideoState) (pct : ℚ)
    (hfl : 0 ≤ env.frameLength) :
    jumpFrame env s pct = max 0 (min env.frameLength
      (s.videoLastFrame + (env.frameLength * pct - s.videoLastFrame) /
        stepDivisor)) := by
  simp only [jumpFrame]
  split_ifs with h1 h2
  · rw [min_eq_right (by linarith), max_eq_left (by linarith)]
  · rw [min_eq_left (by linarith), max_eq_right (by linarith)]
  · push_neg at h1 h2
    rw [min_eq_right h2, max_eq_right h1]

/-- On a buffered update, currentTime and videoLastFrame are determined by
the pause-adjusted frame, in both the near-target and far-target
sub-branches. -/
lemma jumpToTime_buffered_fields (env : Env) (s : VideoState) (pct : ℚ)
    (hb : checkBuffered env.readyState env.slidesLen env.starts
      env.frameLength env.buffered (jumpFrame env s pct) = true) :
    (jumpToTime env s pct).currentTime =
      (if checkForPauses env.frameLength env.pauses s.videoLastFrame
            (jumpFrame env s pct) pct / env.frameRate < 0 then 0
        else if checkForPauses env.frameLength env.pauses s.videoLastFrame
            (jumpFrame env s pct) pct / env.frameRate > env.frameLength then
          env.frameLength
        else checkForPauses env.frameLength env.pauses s.videoLastFrame
            (jumpFrame env s pct) pct / env.frameRate)
    ∧ (jumpToTime env s pct).videoLastFrame =
        checkForPauses env.frameLength env.pauses s.videoLastFrame
          (jumpFrame env s pct) pct := by
  simp only [jumpToTime, hb, if_true]
  constructor
  · split <;> rfl
  · split <;> rfl

/-- Claim C9, amended: on every buffered update during which no pause
region strictly contains the percentage (in particular whenever obj.pauses
is undefined), the frame actually seeked is videoLastFrame + (targetFrame
- videoLastFrame) / stepDivisor clamped to [0, frameLength] with
stepDivisor = 10, and currentTime becomes that frame divided by frameRate;
when a pause region does contain the percentage, checkForPauses replaces
this frame by its own eased value first (the original claim omitted this
case). -/
theorem c9_amended_easing (env : Env) (s : VideoState) (pct : ℚ)
    (hfr : 1 ≤ env.frameRate) (hfl : 0 ≤ env.frameLength)
    (hnp : noPauseApplies env.pauses pct)
    (hbuf : checkBuffered env.readyState env.slidesLen env.starts
      env.frameLength env.buffered (jumpFrame env s pct) = true) :
    (jumpToTime env s pct).currentTime = jumpFrame env s pct / env.frameRate
    ∧ (jumpToTime env s pct).videoLastFrame = jumpFrame env s pct
    ∧ jumpFrame env s pct = max 0 (min env.frameLength
        (s.videoLastFrame + (env.frameLength * pct - s.videoLastFrame) /
          stepDivisor))
    ∧ stepDivisor = 10 := by
  have hpause : checkForPauses env.frameLength env.pauses s.videoLastFrame
      (jumpFrame env s pct) pct = jumpFrame env s pct :=
    checkForPauses_eq_of_noapply env.frameLength env.pauses s.videoLastFrame
      (jumpFrame env s pct) pct hnp
  obtain ⟨hct, hvl⟩ := jumpToTime_buffered_fields env s pct hbuf
  rw [hpause] at hct hvl
  obtain ⟨h0f, hffl⟩ := jumpFrame_bounds env s pct hfl
  have h0 : ¬ (jumpFrame env s pct / env.frameRate < 0) :=
    not_lt.mpr (div_nonneg h0f (by linarith))
  have h1 : ¬ (jumpFrame env s pct / env.frameRate > env.frameLength) :=
    not_lt.mpr (le_trans (div_le_self h0f hfr) hffl)
  rw [if_neg h0, if_neg h1] at hct
  exact ⟨hct, hvl, jumpFrame_eq_clamp env s pct hfl, rfl⟩

/-- Claim C9 counterexample: with a pause region [1/5, 2/5] configured and
percentage 3/10 inside it, a buffered update (frameRate 30, frameLength
600, videoLastFrame 0) seeks currentTime 2/5 = (0 + (600 * 1/5 - 0) / 10)
/ 30, while the claim's formula videoLastFrame + (targetFrame -
videoLastFrame) / 10 clamped and divided by frameRate gives 3/5. -/
theorem c9_counterexample :
    (jumpToTime
        ⟨30, 600, 3, 0, 1, some [(1/5, 2/5)], 0, [], [(0, 1)], true⟩
        ⟨0, 0, false, [], false, false, 0⟩ (3/10)).currentTime = 2/5
    ∧ max 0 (min 600 ((0 : ℚ) + (600 * (3/10) - 0) / stepDivisor)) / 30 = 3/5
    ∧ (2/5 : ℚ) ≠ 3/5 := by
  refine ⟨?_, ?_, by norm_num⟩
  · norm_num [jumpToTime, jumpFrame, checkBuffered, clamp01, findFallbackRange,
      fbRangeGo, bufLoop, checkForPauses, pausesGo, hideFallback, stepDivisor]
  · norm_num [stepDivisor]

/-- Witness for the amended C9 at a buffered update with no pause regions
configured. -/
theorem c9_amended_easing_witness : stepDivisor = 10 :=
  (c9_amended_easing
    ⟨30, 600, 3, 0, 1, none, 0, [], [(0, 1)], true⟩
    ⟨0, 0, false, [], false, false, 0⟩ (3/10)
    (by norm_num) (by norm_num) trivial
    (by norm_num [checkBuffered, jumpFrame, clamp01, findFallbackRange,
      fbRangeGo, bufLoop, stepDivisor])).2.2.2

/-- Claim C10: every jumpToTime call ends in exactly one of the two
visibility states — the buffered branch ran hideFallback, leaving the
video visible and every fallback image without the g-show class, or the
fallback branch ran showFallback, leaving the video hidden; in particular
the buffered branch never leaves the video and a fallback image visible
together. -/
theorem c10_visibility_invariant (env : Env) (s : VideoState) (pct : ℚ) :
    ((jumpToTime env s pct).videoVisible = true ∧
      ∀ b ∈ (jumpToTime env s pct).fallbackShown, b = false)
    ∨ (jumpToTime env s pct).videoVisible = false := by
  cases hb : checkBuffered env.readyState env.slidesLen env.starts
      env.frameLength env.buffered (jumpFrame env s pct) with
  | true =>
    left
    obtain ⟨h1, h2⟩ := jumpToTime_buffered_eq env s pct hb
    refine ⟨h1, ?_⟩
    rw [h2]
    simp
  | false =>
    right
    rw [jumpToTime_not_buffered_eq env s pct hb]
    rfl

/-- Witness for C10 at a concrete not-ready binding: the disjunction holds
at that input. -/
theorem c10_visibility_invariant_witness :
    ((jumpToTime ⟨30, 600, 3, 0, 1, none, 0, [], [], false⟩
        ⟨0, 0, false, [], false, false, 0⟩ 0).videoVisible = true ∧
      ∀ b ∈ (jumpToTime ⟨30, 600, 3, 0, 1, none, 0, [], [], false⟩
        ⟨0, 0, false, [], false, false, 0⟩ 0).fallbackShown, b = false)
    ∨ (jumpToTime ⟨30, 600, 3, 0, 1, none, 0, [], [], false⟩
        ⟨0, 0, false, [], false, false, 0⟩ 0).videoVisible = false :=
  c10_visibility_invariant ⟨30, 600, 3, 0, 1, none, 0, [], [], false⟩
    ⟨0, 0, false, [], false, false, 0⟩ 0

end ScrollVideo
